import Mathlib

/-
Verification of the aiflow execution engine against its design document.

The definitions below are a shallow embedding of the Go sources:
  internal/state        (Task, Run, Store persistence)
  internal/context      (token budget, file overlap, summary formatting,
                         context builder)
  internal/scheduler    (dependency graph, batch generation, file locks)
  internal/executor     (per-task lifecycle, run driver)
  pkg/git               (repo adapter, modelled as effect events)

Conventions of the embedding:
  - Go slices become List, Go string becomes String (one Lean Char per Go
    rune; byte-level index arithmetic is noted where it differs).
  - Go maps become association lists with replace-on-insert semantics;
    the Go code only iterates maps where the resulting value is
    order-independent, so deterministic iteration is faithful.
  - Go int becomes Int (overflow never matters at the sizes involved).
  - A Go panic is modelled as Option.none.
  - Filesystem, git and subprocess effects are modelled as explicit event
    traces with oracle-provided outcomes.
-/

namespace Aiflow

/-! ## Data model (internal/state/types.go) -/

inductive TaskStatus where
  | pending
  | ready
  | running
  | completed
  | failed
deriving Repr, DecidableEq

structure TaskSummary where
  taskId : String
  filesChanged : List String
  filesCreated : List String
  functionsAdded : List String
  typesAdded : List String
  patternsUsed : List String
  decisions : List String
  conventions : List String
  gotchas : List String
  publicInterface : String
deriving Repr, DecidableEq

/-- One unit of work. Timestamps are opaque ticks. `commitSHA` is the
commit id the executor records on the task. -/
structure Task where
  id : String
  title : String
  description : String
  filesRead : List String
  filesWrite : List String
  filesCreate : List String
  dependsOn : List String
  priority : Int
  parallelGroup : String
  status : TaskStatus
  summary : Option TaskSummary
  error : String
  startedAt : Option Nat
  completedAt : Option Nat
  commitSHA : String
deriving Repr, DecidableEq

inductive RunStatus where
  | breakdown
  | ready
  | running
  | completed
  | failed
  | cancelled
deriving Repr, DecidableEq

structure Run where
  id : String
  featureDesc : String
  worktreePath : String
  baseBranch : String
  tasks : List Task
  createdAt : Nat
  updatedAt : Nat
  status : RunStatus
  error : String
  projectType : String
deriving Repr, DecidableEq

/-- Run.IsComplete: all tasks completed, and at least one task. -/
def Run.isComplete (r : Run) : Bool :=
  r.tasks.all (fun t => t.status == TaskStatus.completed) && r.tasks.length > 0

/-! ## File overlap (internal/context/builder.go, DetectFileOverlap) -/

/-- DetectFileOverlap: t1Writes is the membership set of
`t1.FilesWrite ++ t1.FilesCreate`; the code then scans `t2.FilesRead` and
`t2.FilesWrite` against it, and symmetrically scans `t1.FilesRead` and
`t1.FilesWrite` against the set of `t2.FilesWrite ++ t2.FilesCreate`.
Note that neither direction consults the OTHER side of FilesCreate. -/
def DetectFileOverlap (t1 t2 : Task) : Bool :=
  let t1Writes := t1.filesWrite ++ t1.filesCreate
  if t2.filesRead.any (fun f => t1Writes.contains f) then true
  else if t2.filesWrite.any (fun f => t1Writes.contains f) then true
  else
    let t2Writes := t2.filesWrite ++ t2.filesCreate
    if t1.filesRead.any (fun f => t2Writes.contains f) then true
    else t1.filesWrite.any (fun f => t2Writes.contains f)

/-- Modelled from the spec, section 4.3: two tasks overlap iff the
intersection of `(a.writes ∪ a.creates)` with
`(b.reads ∪ b.writes ∪ b.creates)` is non-empty, or symmetrically.
This is the comparison target for the refinement claims; the source
function is `DetectFileOverlap` above. -/
def specOverlap (a b : Task) : Bool :=
  (a.filesWrite ++ a.filesCreate).any
      (fun f => (b.filesRead ++ b.filesWrite ++ b.filesCreate).contains f)
  || (b.filesWrite ++ b.filesCreate).any
      (fun f => (a.filesRead ++ a.filesWrite ++ a.filesCreate).contains f)

/-- What `DetectFileOverlap` actually decides, as a proposition: a shared
path between one side writes-plus-creates and the other side
reads-plus-writes (creates on the second side are not consulted). -/
def codeOverlapProp (a b : Task) : Prop :=
  (∃ f, f ∈ a.filesWrite ++ a.filesCreate ∧ f ∈ b.filesRead ++ b.filesWrite)
  ∨ (∃ f, f ∈ b.filesWrite ++ b.filesCreate ∧ f ∈ a.filesRead ++ a.filesWrite)

theorem detectFileOverlap_iff (a b : Task) :
    DetectFileOverlap a b = true ↔ codeOverlapProp a b := by
  simp only [DetectFileOverlap, codeOverlapProp, Bool.if_true_left, Bool.or_eq_true,
    List.any_eq_true, List.elem_iff, List.mem_append, decide_eq_true_eq]
  constructor
  · rintro (⟨f, hf, hm⟩ | ⟨f, hf, hm⟩ | ⟨f, hf, hm⟩ | ⟨f, hf, hm⟩)
    · exact Or.inl ⟨f, hm, Or.inl hf⟩
    · exact Or.inl ⟨f, hm, Or.inr hf⟩
    · exact Or.inr ⟨f, hm, Or.inl hf⟩
    · exact Or.inr ⟨f, hm, Or.inr hf⟩
  · rintro (⟨f, hm, hf | hf⟩ | ⟨f, hm, hf | hf⟩)
    · exact Or.inl ⟨f, hf, hm⟩
    · exact Or.inr (Or.inl ⟨f, hf, hm⟩)
    · exact Or.inr (Or.inr (Or.inl ⟨f, hf, hm⟩))
    · exact Or.inr (Or.inr (Or.inr ⟨f, hf, hm⟩))

theorem detectFileOverlap_comm (a b : Task) :
    DetectFileOverlap a b = DetectFileOverlap b a := by
  by_cases h : DetectFileOverlap a b = true
  · have h2 : codeOverlapProp b a := (detectFileOverlap_iff a b).mp h |>.symm
    rw [h, ((detectFileOverlap_iff b a).mpr h2)]
  · have h2 : ¬ DetectFileOverlap b a = true := by
      intro hba
      exact h ((detectFileOverlap_iff a b).mpr ((detectFileOverlap_iff b a).mp hba).symm)
    simp only [Bool.not_eq_true] at h h2
    rw [h, h2]

/-! ## Go maps (map[string]T), as association lists with replace-on-insert.
The scheduler only iterates over maps to build other maps (an
order-independent result), or iterates over task slices, so the
deterministic entry order of this model is faithful. -/

abbrev Smap (α : Type) := List (String × α)

def Smap.containsKey {α : Type} (m : Smap α) (k : String) : Bool :=
  m.any (fun p => p.1 == k)

def Smap.getD {α : Type} (m : Smap α) (k : String) (d : α) : α :=
  match m.find? (fun p => p.1 == k) with
  | some p => p.2
  | none => d

def Smap.insert {α : Type} (m : Smap α) (k : String) (v : α) : Smap α :=
  if m.any (fun p => p.1 == k) then
    m.map (fun p => if p.1 == k then (k, v) else p)
  else
    m ++ [(k, v)]

def Smap.size {α : Type} (m : Smap α) : Nat := m.length

/-! ## Scheduler (internal/scheduler/scheduler.go) -/

structure DependencyGraph where
  dependents : Smap (List String)
  dependencies : Smap (List String)
  inDegree : Smap Int
deriving Repr

/-- Initialization loop of BuildDependencyGraph. -/
def graphInit (tasks : List Task) : DependencyGraph :=
  tasks.foldl (fun g t =>
    { dependents := g.dependents.insert t.id []
      dependencies := g.dependencies.insert t.id []
      inDegree := g.inDegree.insert t.id 0 })
    ⟨[], [], []⟩

/-- Explicit-dependency loop of BuildDependencyGraph. -/
def addExplicitEdges (g : DependencyGraph) (tasks : List Task) : DependencyGraph :=
  tasks.foldl (fun g t =>
    t.dependsOn.foldl (fun g depID =>
      { dependents := g.dependents.insert depID ((g.dependents.getD depID []) ++ [t.id])
        dependencies := g.dependencies.insert t.id ((g.dependencies.getD t.id []) ++ [depID])
        inDegree := g.inDegree.insert t.id ((g.inDegree.getD t.id 0) + 1) }) g) g

/-- Body of the pair loop of BuildDependencyGraph: given a pair (t1, t2)
with t1 earlier in the task list, add the implicit file-overlap edge from
the higher-priority task (numerically smaller, ties to t1) unless an
explicit edge exists in either direction. -/
def addImplicitEdge (g : DependencyGraph) (t1 t2 : Task) : DependencyGraph :=
  if t2.dependsOn.contains t1.id || t1.dependsOn.contains t2.id then g
  else if DetectFileOverlap t1 t2 then
    if t1.priority ≤ t2.priority then
      if (g.dependencies.getD t2.id []).contains t1.id then g
      else
        { dependents := g.dependents.insert t1.id ((g.dependents.getD t1.id []) ++ [t2.id])
          dependencies := g.dependencies.insert t2.id ((g.dependencies.getD t2.id []) ++ [t1.id])
          inDegree := g.inDegree.insert t2.id ((g.inDegree.getD t2.id 0) + 1) }
    else
      if (g.dependencies.getD t1.id []).contains t2.id then g
      else
        { dependents := g.dependents.insert t2.id ((g.dependents.getD t2.id []) ++ [t1.id])
          dependencies := g.dependencies.insert t1.id ((g.dependencies.getD t1.id []) ++ [t2.id])
          inDegree := g.inDegree.insert t1.id ((g.inDegree.getD t1.id 0) + 1) }
  else g

/-- The pair loop iterates i over tasks and j over later positions. -/
def addImplicitEdges : DependencyGraph → List Task → DependencyGraph
  | g, [] => g
  | g, t1 :: rest => addImplicitEdges (rest.foldl (fun g t2 => addImplicitEdge g t1 t2) g) rest

def buildDependencyGraph (tasks : List Task) : DependencyGraph :=
  addImplicitEdges (addExplicitEdges (graphInit tasks) tasks) tasks

/-- Run.GetCompletedTasks. -/
def getCompletedTasks (tasks : List Task) : Smap Bool :=
  tasks.foldl (fun m t =>
    if t.status == TaskStatus.completed then m.insert t.id true else m) []

/-- The in-degree adjustment at the top of GenerateBatches: drop completed
ids and subtract each completed dependency. -/
def adjustInDegree (g : DependencyGraph) (completed : Smap Bool) : Smap Int :=
  g.inDegree.foldl (fun m p =>
    if completed.getD p.1 false then m
    else
      m.insert p.1
        (p.2 - (((g.dependencies.getD p.1 []).filter
                  (fun d => completed.getD d false)).length : Int))) []

/-- The ready scan inside the GenerateBatches loop. -/
def readyTasks (tasks : List Task) (completed : Smap Bool) (inDeg : Smap Int) : List Task :=
  tasks.filter (fun t =>
    !(completed.getD t.id false) && !(t.status == TaskStatus.completed)
      && (inDeg.getD t.id 0 == 0))

/-- Greedy admission loop of filterParallelSafe. The Go loop computes
canAdd against the admitted set, conditionally appends the candidate, and
then applies the size check to the updated slice; both branches are
spelled out here. -/
def filterParallelSafeAux (maxParallel : Int) : List Task → List Task → List Task
  | safe, [] => safe
  | safe, c :: rest =>
    if safe.all (fun e => !(DetectFileOverlap e c)) then
      if (((safe ++ [c]).length : Int) ≥ maxParallel) then safe ++ [c]
      else filterParallelSafeAux maxParallel (safe ++ [c]) rest
    else
      if ((safe.length : Int) ≥ maxParallel) then safe
      else filterParallelSafeAux maxParallel safe rest

def filterParallelSafe (maxParallel : Int) (tasks : List Task) : List Task :=
  if tasks.length ≤ 1 then tasks
  else
    match tasks with
    | [] => []
    | t0 :: rest => filterParallelSafeAux maxParallel [t0] rest

/-- One iteration of accounting after a batch is emitted: mark each batch
task completed, decrement remaining, and decrement the in-degrees of its
dependents that are still tracked. -/
def accountBatch (graph : DependencyGraph) (batch : List Task)
    (st : Smap Bool × Smap Int × Int) : Smap Bool × Smap Int × Int :=
  batch.foldl (fun st t =>
    let c := st.1.insert t.id true
    let d := (graph.dependents.getD t.id []).foldl (fun d dep =>
      if d.containsKey dep then d.insert dep ((d.getD dep 0) - 1) else d) st.2.1
    (c, d, st.2.2 - 1)) st

/-- The GenerateBatches while loop, fuel-indexed. Each Go iteration that
does not exit strictly decreases `remaining`, and `remaining` starts at
most at the task count, so `tasks.length + 1` fuel covers every
terminating Go execution (with a nonpositive cap the Go loop panics or
spins on empty batches; the model then emits empty batches until fuel
runs out, which no claim depends on). -/
def generateBatchesLoop (graph : DependencyGraph) (tasks : List Task) (maxParallel : Int) :
    Nat → Smap Bool → Smap Int → Int → List (List Task) → List (List Task)
  | 0, _, _, _, batches => batches
  | fuel + 1, completed, inDeg, remaining, batches =>
    if remaining > 0 then
      let ready := readyTasks tasks completed inDeg
      if ready.isEmpty then batches
      else
        let sorted := List.insertionSort (fun a b => a.priority ≤ b.priority) ready
        let limited :=
          if ((sorted.length : Int) > maxParallel) then sorted.take maxParallel.toNat
          else sorted
        let batch := filterParallelSafe maxParallel limited
        let st := accountBatch graph batch (completed, inDeg, remaining)
        generateBatchesLoop graph tasks maxParallel fuel st.1 st.2.1 st.2.2 (batches ++ [batch])
    else batches

/-- Scheduler.GenerateBatches for a run with the given task list and
concurrency cap. Go sorts ready candidates with an unstable sort; the
model uses an insertion sort over the same comparator, one admissible
outcome, and the theorems below depend only on comparator-sortedness. -/
def GenerateBatches (tasks : List Task) (maxParallel : Int) : List (List Task) :=
  let graph := buildDependencyGraph tasks
  let completed := getCompletedTasks tasks
  let inDeg := adjustInDegree graph completed
  let remaining : Int := (tasks.length : Int) - (completed.size : Int)
  generateBatchesLoop graph tasks maxParallel (tasks.length + 1) completed inDeg remaining []

/-- Scheduler.GetNextBatch: head of GenerateBatches, or empty. -/
def GetNextBatch (tasks : List Task) (maxParallel : Int) : List Task :=
  match GenerateBatches tasks maxParallel with
  | [] => []
  | b :: _ => b

/-- No admitted task overlaps (per DetectFileOverlap) an earlier admitted
task: the invariant of the greedy admission loop. -/
theorem filterParallelSafeAux_pairwise (maxParallel : Int) :
    ∀ rest safe, List.Pairwise (fun a b => DetectFileOverlap a b = false) safe →
      List.Pairwise (fun a b => DetectFileOverlap a b = false)
        (filterParallelSafeAux maxParallel safe rest) := by
  intro rest
  induction rest with
  | nil => intro safe h; simpa [filterParallelSafeAux] using h
  | cons c rest ih =>
    intro safe h
    rw [filterParallelSafeAux]
    by_cases hc : safe.all (fun e => !(DetectFileOverlap e c)) = true
    · have hsafe2 : List.Pairwise (fun a b => DetectFileOverlap a b = false) (safe ++ [c]) := by
        rw [List.pairwise_append]
        refine ⟨h, List.pairwise_singleton _ _, ?_⟩
        intro a ha b hb
        rw [List.mem_singleton.mp hb]
        have := List.all_eq_true.mp hc a ha
        simpa using this
      simp only [hc, if_true]
      split
      · exact hsafe2
      · exact ih _ hsafe2
    · simp only [hc, Bool.false_eq_true, if_false]
      split
      · exact h
      · exact ih _ h

theorem filterParallelSafe_pairwise (maxParallel : Int) (tasks : List Task) :
    List.Pairwise (fun a b => DetectFileOverlap a b = false)
      (filterParallelSafe maxParallel tasks) := by
  rw [filterParallelSafe.eq_def]
  split
  · match tasks with
    | [] => exact List.Pairwise.nil
    | [t] => exact List.pairwise_singleton _ _
    | t1 :: t2 :: rest => simp at *
  · match tasks with
    | [] => exact List.Pairwise.nil
    | t0 :: rest =>
      exact filterParallelSafeAux_pairwise maxParallel rest [t0] (List.pairwise_singleton _ _)

theorem generateBatchesLoop_pairwise (graph : DependencyGraph) (tasks : List Task)
    (maxParallel : Int) :
    ∀ fuel completed inDeg remaining batches,
      (∀ b ∈ batches, List.Pairwise (fun a b => DetectFileOverlap a b = false) b) →
      ∀ b ∈ generateBatchesLoop graph tasks maxParallel fuel completed inDeg remaining batches,
        List.Pairwise (fun a b => DetectFileOverlap a b = false) b := by
  intro fuel
  induction fuel with
  | zero => intro completed inDeg remaining batches hacc; simpa [generateBatchesLoop] using hacc
  | succ fuel ih =>
    intro completed inDeg remaining batches hacc
    rw [generateBatchesLoop]
    split
    · by_cases hr : (readyTasks tasks completed inDeg).isEmpty = true
      · simpa [hr] using hacc
      · simp only [hr, Bool.false_eq_true, if_false]
        apply ih
        intro b hb
        rcases List.mem_append.mp hb with hb | hb
        · exact hacc b hb
        · rw [List.mem_singleton.mp hb]
          exact filterParallelSafe_pairwise _ _
    · exact hacc

/-! ## Concrete tasks for counterexamples and witnesses -/

/-- A task with every field empty; concrete tasks below override fields. -/
def baseTask : Task :=
  { id := "", title := "", description := "", filesRead := [], filesWrite := []
    filesCreate := [], dependsOn := [], priority := 0, parallelGroup := ""
    status := TaskStatus.pending, summary := none, error := "", startedAt := none
    completedAt := none, commitSHA := "" }

/-- Pending task that creates file f, priority 1. -/
def ceTaskA : Task := { baseTask with id := "t1", filesCreate := ["f"], priority := 1 }

/-- Pending task that also creates file f, priority 2, no other file sets:
it overlaps ceTaskA per the section 4.3 definition (creates ∩ creates) but
DetectFileOverlap does not see it. -/
def ceTaskB : Task := { baseTask with id := "t2", filesCreate := ["f"], priority := 2 }

/-- C2 counterexample: the claim says DetectFileOverlap is true exactly
when (a.writes ∪ a.creates) meets (b.reads ∪ b.writes ∪ b.creates) or
symmetrically. Two tasks that only create the same file meet that
definition, yet DetectFileOverlap returns false, because neither scan
consults the other side of FilesCreate. -/
theorem detectFileOverlap_misses_create_create :
    DetectFileOverlap ceTaskA ceTaskB = false ∧ specOverlap ceTaskA ceTaskB = true := by
  decide

/-- C2 (amended): DetectFileOverlap a b is true iff the intersection of
(a.writes ∪ a.creates) with (b.reads ∪ b.writes) is non-empty, or
symmetrically the intersection of (b.writes ∪ b.creates) with
(a.reads ∪ a.writes) is non-empty, comparing exact path strings; the
creates of the opposite task are not consulted. -/
theorem detectFileOverlap_characterization (a b : Task) :
    DetectFileOverlap a b = true ↔
      ((∃ f, f ∈ a.filesWrite ++ a.filesCreate ∧ f ∈ b.filesRead ++ b.filesWrite) ∨
       (∃ f, f ∈ b.filesWrite ++ b.filesCreate ∧ f ∈ a.filesRead ++ a.filesWrite)) :=
  detectFileOverlap_iff a b

/-- C1 counterexample: with the overlap definition of section 4.3 the
claim fails. ceTaskA and ceTaskB overlap per section 4.3 (both create f),
no explicit or implicit edge separates them, and the scheduler emits them
in one batch. -/
theorem generateBatches_spec_overlap_counterexample :
    GenerateBatches [ceTaskA, ceTaskB] 2 = [[ceTaskA, ceTaskB]] ∧
      specOverlap ceTaskA ceTaskB = true := by
  constructor
  · decide
  · decide

/-- C1 (amended): for every run task list and every concurrency cap,
every batch emitted by GenerateBatches is internally parallel-safe with
respect to the overlap relation the code computes: no two tasks of one
batch overlap per DetectFileOverlap, in either orientation. (With respect
to the section 4.3 relation, which also counts create/create collisions,
the guarantee fails; see the counterexample.) -/
theorem generateBatches_parallelSafe (tasks : List Task) (maxParallel : Int) :
    ∀ batch ∈ GenerateBatches tasks maxParallel,
      List.Pairwise
        (fun a b => DetectFileOverlap a b = false ∧ DetectFileOverlap b a = false) batch := by
  intro batch hb
  simp only [GenerateBatches] at hb
  have h := generateBatchesLoop_pairwise (buildDependencyGraph tasks) tasks maxParallel
    (tasks.length + 1) (getCompletedTasks tasks)
    (adjustInDegree (buildDependencyGraph tasks) (getCompletedTasks tasks))
    ((tasks.length : Int) - ((getCompletedTasks tasks).size : Int)) []
    (by intro b hb2; simp at hb2) batch hb
  exact h.imp (fun hab => ⟨hab, by rw [detectFileOverlap_comm]; exact hab⟩)

/-- Witness for the amended C1 theorem at a concrete run. -/
theorem generateBatches_parallelSafe_witness :
    [ceTaskA, ceTaskB] ∈ GenerateBatches [ceTaskA, ceTaskB] 2 ∧
      List.Pairwise
        (fun a b => DetectFileOverlap a b = false ∧ DetectFileOverlap b a = false)
        [ceTaskA, ceTaskB] :=
  ⟨by decide, generateBatches_parallelSafe [ceTaskA, ceTaskB] 2 [ceTaskA, ceTaskB] (by decide)⟩

/-! ## Token estimation and budget (internal/context/tokens.go) -/

/-- EstimateTokens: rune count plus three, divided by four (Go integer
division on nonnegative operands equals Nat division). -/
def EstimateTokens (text : String) : Nat := (text.length + 3) / 4

/-- The fixed truncation marker appended by TruncateToTokens. -/
def truncationMarker : String := "\n\n... [truncated]"

/-- Index of the last newline rune, as strings.LastIndex against the
single-rune pattern; none models the Go result -1. Go returns a byte
index while the model counts runes; the guard and cut below only ever
shorten the kept prefix, which is all the theorems use. -/
def lastNewlineIdx (cs : List Char) : Option Nat :=
  (List.range cs.length).foldl
    (fun acc i => if cs.getD i ' ' = '\n' then some i else acc) none

/-- TruncateToTokens. For 1 ≤ maxTokens ≤ 4 and input longer than
4*maxTokens runes, the Go code slices runes[:maxTokens*4-20] with a
negative bound and panics; the panic is modelled as none. -/
def TruncateToTokens (text : String) (maxTokens : Int) : Option String :=
  if maxTokens ≤ 0 then some ""
  else
    let maxChars : Int := maxTokens * 4
    let runes := text.data
    if (runes.length : Int) ≤ maxChars then some text
    else if maxChars - 20 < 0 then none
    else
      let truncated := runes.take (maxChars - 20).toNat
      let truncated2 :=
        match lastNewlineIdx truncated with
        | some i => if i > truncated.length / 2 then truncated.take i else truncated
        | none => truncated
      some (String.mk truncated2 ++ truncationMarker)

structure TokenBudget where
  total : Int
  used : Int
  reserved : Int
deriving Repr, DecidableEq

def TokenBudget.available (b : TokenBudget) : Int := b.total - b.used - b.reserved

def TokenBudget.canFit (b : TokenBudget) (tokens : Int) : Bool := b.available ≥ tokens

/-- Use: charge the budget if the amount fits; the Bool is the Go return
value. -/
def TokenBudget.use (b : TokenBudget) (tokens : Int) : TokenBudget × Bool :=
  if b.canFit tokens then ({ b with used := b.used + tokens }, true) else (b, false)

/-- TryFitContent: accept whole if it fits, otherwise truncate to the
available budget unless fewer than minTokens remain; none models the
panic TruncateToTokens can raise. Result: updated budget, granted text,
accept flag. -/
def TokenBudget.tryFitContent (b : TokenBudget) (content : String) (minTokens : Int) :
    Option (TokenBudget × String × Bool) :=
  let tokens : Int := EstimateTokens content
  if b.canFit tokens then some ({ b with used := b.used + tokens }, content, true)
  else if b.available < minTokens then some (b, "", false)
  else
    match TruncateToTokens content b.available with
    | none => none
    | some truncated =>
      some ({ b with used := b.used + (EstimateTokens truncated : Int) }, truncated, true)

/-- A call sequence against one budget, for the sequence claims. -/
inductive BudgetOp where
  | use (tokens : Int)
  | tryFit (content : String) (minTokens : Int)
deriving Repr

def budgetStep (b : TokenBudget) : BudgetOp → Option TokenBudget
  | BudgetOp.use tokens => some (b.use tokens).1
  | BudgetOp.tryFit content minTokens => (b.tryFitContent content minTokens).map (·.1)

def runBudgetOps (b : TokenBudget) : List BudgetOp → Option TokenBudget
  | [] => some b
  | op :: ops =>
    match budgetStep b op with
    | none => none
    | some b2 => runBudgetOps b2 ops

/-- Whatever TruncateToTokens returns without panicking costs at most
maxTokens estimated tokens, for a nonnegative maxTokens. -/
theorem truncateToTokens_estimate_le (text : String) (maxTokens : Int) (res : String)
    (hnn : 0 ≤ maxTokens) (h : TruncateToTokens text maxTokens = some res) :
    (EstimateTokens res : Int) ≤ maxTokens := by
  simp only [TruncateToTokens] at h
  split at h
  · rename_i hle
    have hres : res = "" := by injection h with h2; exact h2.symm
    subst hres
    have hz : EstimateTokens "" = 0 := by decide
    omega
  · rename_i hpos
    split at h
    · rename_i hfit
      injection h with h2
      subst h2
      simp only [EstimateTokens]
      have hdata : text.length = text.data.length := rfl
      omega
    · split at h
      · exact absurd h (by simp)
      · rename_i hfit hng
        injection h with h2
        subst h2
        have hkeptlen : (text.data.take (maxTokens * 4 - 20).toNat).length ≤
            (maxTokens * 4 - 20).toNat := List.length_take_le _ _
        have hlen2 : ∀ cs : List Char,
            (match lastNewlineIdx cs with
             | some i => if i > cs.length / 2 then cs.take i else cs
             | none => cs).length ≤ cs.length := by
          intro cs
          split
          · rename_i i _
            split
            · calc (cs.take i).length = min i cs.length := List.length_take _ _
                _ ≤ cs.length := min_le_right _ _
            · exact le_refl _
          · exact le_refl _
        have hbound := le_trans (hlen2 (text.data.take (maxTokens * 4 - 20).toNat)) hkeptlen
        simp only [EstimateTokens, String.length_append]
        have hmk : ∀ l : List Char, (String.mk l).length = l.length := fun l => rfl
        rw [hmk]
        have hmark : truncationMarker.length = 17 := by decide
        rw [hmark]
        have htoNat : ((maxTokens * 4 - 20).toNat : Int) = maxTokens * 4 - 20 := by omega
        omega

/-- One budget step preserves the cap invariant: with used at most
total minus reserved before the call, it stays there after. -/
theorem budgetStep_invariant (b b2 : TokenBudget) (op : BudgetOp)
    (hinv : b.used ≤ b.total - b.reserved) (h : budgetStep b op = some b2) :
    b2.used ≤ b2.total - b2.reserved ∧ b2.total = b.total ∧ b2.reserved = b.reserved := by
  cases op with
  | use tokens =>
    simp only [budgetStep, TokenBudget.use] at h
    split at h <;> injection h with h2 <;> subst h2
    · rename_i hfit
      simp only [TokenBudget.canFit, TokenBudget.available, ge_iff_le, decide_eq_true_eq] at hfit
      refine ⟨?_, rfl, rfl⟩
      simp only
      omega
    · exact ⟨hinv, rfl, rfl⟩
  | tryFit content minTokens =>
    simp only [budgetStep] at h
    rcases Option.map_eq_some'.mp h with ⟨p, hp, hb2⟩
    subst hb2
    simp only [TokenBudget.tryFitContent] at hp
    split at hp
    · rename_i hfit
      simp only [TokenBudget.canFit, TokenBudget.available, ge_iff_le, decide_eq_true_eq] at hfit
      injection hp with h2
      subst h2
      refine ⟨?_, rfl, rfl⟩
      simp only
      omega
    · split at hp
      · injection hp with h2
        subst h2
        exact ⟨hinv, rfl, rfl⟩
      · rename_i hfit hmin
        split at hp
        · exact absurd hp (by simp)
        · rename_i truncated htr
          injection hp with h2
          subst h2
          have havail : (0 : Int) ≤ b.available := by
            simp only [TokenBudget.available]
            omega
          have := truncateToTokens_estimate_le content b.available truncated havail htr
          refine ⟨?_, rfl, rfl⟩
          simp only [TokenBudget.available] at this ⊢
          omega

theorem runBudgetOps_invariant (ops : List BudgetOp) :
    ∀ b b2 : TokenBudget, b.used ≤ b.total - b.reserved →
      runBudgetOps b ops = some b2 → b2.used ≤ b2.total - b2.reserved := by
  induction ops with
  | nil =>
    intro b b2 hinv h
    simp only [runBudgetOps] at h
    injection h with h2
    subst h2
    exact hinv
  | cons op ops ih =>
    intro b b2 hinv h
    simp only [runBudgetOps] at h
    split at h
    · exact absurd h (by simp)
    · rename_i bmid hmid
      exact ih bmid b2 (budgetStep_invariant b bmid op hinv hmid).1 h

/-- C8 counterexample: the claim quantifies over every budget with
used = 0, but a budget whose reserved exceeds its total already violates
used ≤ total - reserved, and a Use call leaves it violated. -/
theorem tokenBudget_invariant_counterexample :
    runBudgetOps { total := 0, used := 0, reserved := 1 } [BudgetOp.use 0] =
      some { total := 0, used := 0, reserved := 1 } ∧
      ¬ (({ total := 0, used := 0, reserved := 1 } : TokenBudget).used ≤
          ({ total := 0, used := 0, reserved := 1 } : TokenBudget).total -
          ({ total := 0, used := 0, reserved := 1 } : TokenBudget).reserved) := by
  decide

/-- C8 (amended): for a budget starting at used = 0 with
reserved ≤ total, any sequence of Use and TryFitContent calls that
returns (no truncation panic) keeps used at most total - reserved; and
any accepted TryFitContent grants text whose estimated token count equals
exactly the amount it adds to used. -/
theorem tokenBudget_sequence_safety (total reserved : Int) (ops : List BudgetOp)
    (b2 b c2 : TokenBudget) (content granted : String) (minTokens : Int)
    (hres : reserved ≤ total)
    (hrun : runBudgetOps { total := total, used := 0, reserved := reserved } ops = some b2)
    (htf : b.tryFitContent content minTokens = some (c2, granted, true)) :
    b2.used ≤ b2.total - b2.reserved ∧ (EstimateTokens granted : Int) = c2.used - b.used := by
  constructor
  · exact runBudgetOps_invariant ops _ b2 (by simp only; omega) hrun
  · simp only [TokenBudget.tryFitContent] at htf
    split at htf
    · injection htf with h2
      simp only [Prod.ext_iff] at h2
      rcases h2 with ⟨hc2, hg, -⟩
      subst hg
      rw [← hc2]
      simp only
      ring
    · split at htf
      · injection htf with h2
        simp only [Prod.ext_iff] at h2
        rcases h2 with ⟨-, -, hflag⟩
        exact absurd hflag (by decide)
      · split at htf
        · exact absurd htf (by simp)
        · rename_i truncated htr
          injection htf with h2
          simp only [Prod.ext_iff] at h2
          rcases h2 with ⟨hc2, hg, -⟩
          subst hg
          rw [← hc2]
          simp only
          ring

/-- Witness for the amended C8 theorem: two Use calls (one rejected) and
one accepted TryFitContent on a concrete budget. -/
theorem tokenBudget_sequence_safety_witness :
    ({ total := 4, used := 3, reserved := 1 } : TokenBudget).used ≤
        ({ total := 4, used := 3, reserved := 1 } : TokenBudget).total -
        ({ total := 4, used := 3, reserved := 1 } : TokenBudget).reserved ∧
      (EstimateTokens "hello" : Int) =
        ({ total := 10, used := 2, reserved := 2 } : TokenBudget).used -
        ({ total := 10, used := 0, reserved := 2 } : TokenBudget).used :=
  tokenBudget_sequence_safety 4 1 [BudgetOp.use 2, BudgetOp.use 1, BudgetOp.use 5]
    { total := 4, used := 3, reserved := 1 }
    { total := 10, used := 0, reserved := 2 } { total := 10, used := 2, reserved := 2 }
    "hello" "hello" 0 (by decide) (by decide) (by decide)

/-- C10: TruncateToTokens is not total. At maxTokens = 1 with the
five-rune input aaaaa, the input is longer than maxTokens*4 runes and the
Go code slices runes[:maxTokens*4 - 20] with a negative bound: a
slice-bounds panic, which the model returns as none. The companion
theorem truncateToTokens_estimate_le establishes the claimed token bound
in every case where the function does return. -/
theorem truncateToTokens_panics_on_small_budget :
    TruncateToTokens "aaaaa" 1 = none := by decide

/-! ## Summary formatting (internal/context/summary.go) -/

def joinComma (l : List String) : String := String.intercalate ", " l

def bulletsCode (l : List String) : String :=
  String.join (l.map (fun f => "- `" ++ f ++ "`\n"))

def bullets (l : List String) : String :=
  String.join (l.map (fun d => "- " ++ d ++ "\n"))

/-- FormatFullSummary: every non-empty field as a labeled section,
prefixed with the originating task title. -/
def FormatFullSummary (s : TaskSummary) (title : String) : String :=
  "## Summary from Task: " ++ title ++ "\n\n"
  ++ (if s.filesChanged.length > 0 then
        "**Files Changed:** " ++ joinComma s.filesChanged ++ "\n\n" else "")
  ++ (if s.filesCreated.length > 0 then
        "**Files Created:** " ++ joinComma s.filesCreated ++ "\n\n" else "")
  ++ (if s.functionsAdded.length > 0 then
        "**Functions Added:**\n" ++ bulletsCode s.functionsAdded ++ "\n" else "")
  ++ (if s.typesAdded.length > 0 then
        "**Types Added:**\n" ++ bulletsCode s.typesAdded ++ "\n" else "")
  ++ (if s.patternsUsed.length > 0 then
        "**Patterns Used:** " ++ joinComma s.patternsUsed ++ "\n\n" else "")
  ++ (if s.decisions.length > 0 then
        "**Key Decisions:**\n" ++ bullets s.decisions ++ "\n" else "")
  ++ (if s.conventions.length > 0 then
        "**Conventions:**\n" ++ bullets s.conventions ++ "\n" else "")
  ++ (if s.gotchas.length > 0 then
        "**Important Notes:**\n" ++ bullets s.gotchas ++ "\n" else "")
  ++ (if s.publicInterface ≠ "" then
        "**Public Interface:** " ++ s.publicInterface ++ "\n" else "")

/-- FormatLightSummary: files, decisions and public interface only. -/
def FormatLightSummary (s : TaskSummary) (title : String) : String :=
  "## Context from Task: " ++ title ++ "\n\n"
  ++ (if (s.filesChanged ++ s.filesCreated).length > 0 then
        "**Files Modified:** " ++ joinComma (s.filesChanged ++ s.filesCreated) ++ "\n\n" else "")
  ++ (if s.decisions.length > 0 then
        "**Decisions:**\n" ++ bullets s.decisions ++ "\n" else "")
  ++ (if s.publicInterface ≠ "" then
        "**Exports:** " ++ s.publicInterface ++ "\n" else "")

/-! ## Summary context block (internal/context/builder.go,
buildSummaryContext) -/

structure SummariesConfig where
  includeForDependencies : Bool
  includeForSameFeature : Bool
  maxSummaryTokens : Int
deriving Repr, DecidableEq

structure SummaryEntry where
  task : Task
  isDirect : Bool
deriving Repr, DecidableEq

/-- The collection loop of buildSummaryContext: completed tasks other
than the target that carry a summary, classified by direct dependency
(the Go loop binds this to a local flag) and kept per the two policy
flags, in task-list order; the Go loop appends, modelled as prepend
recursion producing the same list. -/
def summaryCandidatesAux (cfg : SummariesConfig) (task : Task) : List Task → List SummaryEntry
  | [] => []
  | t :: rest =>
    if t.id == task.id || !(t.status == TaskStatus.completed) || t.summary.isNone then
      summaryCandidatesAux cfg task rest
    else if task.dependsOn.contains t.id && cfg.includeForDependencies then
      ⟨t, true⟩ :: summaryCandidatesAux cfg task rest
    else if !(task.dependsOn.contains t.id) && cfg.includeForSameFeature then
      ⟨t, false⟩ :: summaryCandidatesAux cfg task rest
    else summaryCandidatesAux cfg task rest

def summaryCandidates (cfg : SummariesConfig) (run : Run) (task : Task) : List SummaryEntry :=
  summaryCandidatesAux cfg task run.tasks

/-- The sort.Slice comparator: direct dependencies first, then ascending
priority. -/
def summaryLess (a b : SummaryEntry) : Bool :=
  if a.isDirect != b.isDirect then a.isDirect
  else decide (a.task.priority < b.task.priority)

/-- Non-strict companion of summaryLess; a list sorted by the Go
comparator is exactly a list that is Pairwise in this relation. -/
def summaryLe (a b : SummaryEntry) : Prop := summaryLess b a = false

instance : DecidableRel summaryLe := fun a b => by unfold summaryLe; infer_instance

theorem summaryLe_total_thm (a b : SummaryEntry) : summaryLe a b ∨ summaryLe b a := by
  unfold summaryLe summaryLess
  by_cases hd : a.isDirect = b.isDirect
  · rcases le_or_lt a.task.priority b.task.priority with hp | hp
    · left; simp [hd]; omega
    · right; simp [hd]; omega
  · cases ha : a.isDirect <;> cases hb : b.isDirect <;>
      simp_all [bne]

theorem summaryLe_trans_thm (a b c : SummaryEntry) :
    summaryLe a b → summaryLe b c → summaryLe a c := by
  unfold summaryLe summaryLess
  cases ha : a.isDirect <;> cases hb : b.isDirect <;> cases hc : c.isDirect <;>
    simp_all [bne] <;> omega

instance : IsTotal SummaryEntry summaryLe := ⟨summaryLe_total_thm⟩

instance : IsTrans SummaryEntry summaryLe := ⟨summaryLe_trans_thm⟩

/-- Full format for direct dependencies, light format otherwise. -/
def formatEntry (e : SummaryEntry) (s : TaskSummary) : String :=
  if e.isDirect then FormatFullSummary s e.task.title
  else FormatLightSummary s e.task.title

/-- The admission loop of buildSummaryContext: format each entry, enforce
the per-summary cap by truncation (the Go code then charges
maxPerSummary, not a re-estimate), and admit the entry only if the
remaining budget fits the charge. The admitted entries are returned with
their formatted strings; none models the TruncateToTokens panic (and the
nil-summary dereference, unreachable for candidate entries). -/
def admitSummaries (maxPerSummary : Int) :
    TokenBudget → List SummaryEntry → Option (TokenBudget × List (SummaryEntry × String))
  | b, [] => some (b, [])
  | b, e :: rest =>
    match e.task.summary with
    | none => none
    | some s =>
      if (EstimateTokens (formatEntry e s) : Int) > maxPerSummary then
        match TruncateToTokens (formatEntry e s) maxPerSummary with
        | none => none
        | some f2 =>
          if b.canFit maxPerSummary then
            match admitSummaries maxPerSummary
                { b with used := b.used + maxPerSummary } rest with
            | none => none
            | some (b2, parts) => some (b2, (e, f2) :: parts)
          else
            admitSummaries maxPerSummary b rest
      else
        if b.canFit (EstimateTokens (formatEntry e s) : Int) then
          match admitSummaries maxPerSummary
              { b with used := b.used + (EstimateTokens (formatEntry e s) : Int) } rest with
          | none => none
          | some (b2, parts) => some (b2, (e, formatEntry e s) :: parts)
        else
          admitSummaries maxPerSummary b rest

/-- buildSummaryContext: collect, sort, admit under the budget, join with
the block header. The admitted entry list is carried in the result so the
ordering theorems can speak about which summary came from which task. -/
def buildSummaryContext (cfg : SummariesConfig) (run : Run) (task : Task)
    (budget : TokenBudget) :
    Option (String × TokenBudget × List (SummaryEntry × String)) :=
  if !cfg.includeForDependencies && !cfg.includeForSameFeature then some ("", budget, [])
  else
    match admitSummaries cfg.maxSummaryTokens budget
        (List.insertionSort summaryLe (summaryCandidates cfg run task)) with
    | none => none
    | some (b2, parts) =>
      if parts.isEmpty then some ("", b2, [])
      else
        some ("# Context from Prior Tasks\n\n"
            ++ String.intercalate "\n" (parts.map (fun p => p.2)), b2, parts)

/-- The ordering property of the claim, phrased on admitted entries:
summaries of direct dependencies of the target task come first, and
entries of equal directness are in ascending priority. -/
def summaryOrdered (task : Task) (a b : SummaryEntry) : Prop :=
  (task.dependsOn.contains b.task.id = true → task.dependsOn.contains a.task.id = true) ∧
  (task.dependsOn.contains a.task.id = task.dependsOn.contains b.task.id →
    a.task.priority ≤ b.task.priority)

theorem summaryCandidatesAux_isDirect (cfg : SummariesConfig) (task : Task) :
    ∀ l : List Task, ∀ e ∈ summaryCandidatesAux cfg task l,
      e.isDirect = task.dependsOn.contains e.task.id := by
  intro l
  induction l with
  | nil => intro e he; simp [summaryCandidatesAux] at he
  | cons t rest ih =>
    intro e he
    rw [summaryCandidatesAux] at he
    split at he
    · exact ih e he
    · split at he
      · rename_i hdir
        rcases List.mem_cons.mp he with he | he
        · subst he
          simp only
          exact ((Bool.and_eq_true _ _).mp hdir).1.symm
        · exact ih e he
      · split at he
        · rename_i hskip hndir
          rcases List.mem_cons.mp he with he | he
          · subst he
            simp only
            have hx := ((Bool.and_eq_true _ _).mp hndir).1
            simp only [Bool.not_eq_true'] at hx
            exact hx.symm
          · exact ih e he
        · exact ih e he

/-- The admitted entries are a sublist of the input entry list: admission
only drops entries, never reorders. -/
theorem admitSummaries_entries_sublist (m : Int) :
    ∀ (es : List SummaryEntry) (b b2 : TokenBudget) (parts : List (SummaryEntry × String)),
      admitSummaries m b es = some (b2, parts) →
      (parts.map (fun p => p.1)).Sublist es := by
  intro es
  induction es with
  | nil =>
    intro b b2 parts h
    simp only [admitSummaries] at h
    injection h with h2
    have hp := congrArg (fun x : TokenBudget × List (SummaryEntry × String) => x.2) h2
    simp only at hp
    rw [← hp]
    simp
  | cons e rest ih =>
    intro b b2 parts h
    simp only [admitSummaries] at h
    split at h
    · exact absurd h (by simp)
    · split at h
      · split at h
        · exact absurd h (by simp)
        · split at h
          · split at h
            · exact absurd h (by simp)
            · rename_i hrec
              injection h with h2
              have hp := congrArg (fun x : TokenBudget × List (SummaryEntry × String) => x.2) h2
              simp only at hp
              rw [← hp]
              simp only [List.map_cons]
              exact List.Sublist.cons₂ e (ih _ _ _ hrec)
          · exact List.Sublist.cons e (ih _ _ _ h)
      · split at h
        · split at h
          · exact absurd h (by simp)
          · rename_i hrec
            injection h with h2
            have hp := congrArg (fun x : TokenBudget × List (SummaryEntry × String) => x.2) h2
            simp only at hp
            rw [← hp]
            simp only [List.map_cons]
            exact List.Sublist.cons₂ e (ih _ _ _ hrec)
        · exact List.Sublist.cons e (ih _ _ _ h)

/-- Comparator sortedness implies the ordering of the claim, given the
directness invariant on both entries. -/
theorem summaryLe_to_ordered (task : Task) (a b : SummaryEntry)
    (ha : a.isDirect = task.dependsOn.contains a.task.id)
    (hb : b.isDirect = task.dependsOn.contains b.task.id)
    (hle : summaryLe a b) : summaryOrdered task a b := by
  unfold summaryLe summaryLess at hle
  constructor
  · intro hbdep
    by_cases hadep : task.dependsOn.contains a.task.id = true
    · exact hadep
    · exfalso
      simp only [Bool.not_eq_true] at hadep
      rw [ha, hb, hbdep, hadep] at hle
      simp at hle
  · intro heq
    rw [ha, hb, heq] at hle
    simp at hle
    omega

/-- C9 (confirmed): in the prior-task-summaries block built for a task,
every admitted summary of a direct dependency (a task in depends_on)
appears before every admitted summary of a non-dependency task, and
within each group summaries appear in ascending priority of the
originating task. -/
theorem buildSummaryContext_ordering (cfg : SummariesConfig) (run : Run) (task : Task)
    (budget : TokenBudget) (ctx : String) (b2 : TokenBudget)
    (parts : List (SummaryEntry × String))
    (h : buildSummaryContext cfg run task budget = some (ctx, b2, parts)) :
    List.Pairwise (summaryOrdered task) (parts.map (fun p => p.1)) := by
  simp only [buildSummaryContext] at h
  have key : ∀ (b2m : TokenBudget) (partsm : List (SummaryEntry × String)),
      admitSummaries cfg.maxSummaryTokens budget
        (List.insertionSort summaryLe (summaryCandidates cfg run task)) = some (b2m, partsm) →
      List.Pairwise (summaryOrdered task) (partsm.map (fun p => p.1)) := by
    intro b2m partsm hadmit
    have hsub := admitSummaries_entries_sublist cfg.maxSummaryTokens _ _ _ _ hadmit
    have hsorted : List.Pairwise summaryLe
        (List.insertionSort summaryLe (summaryCandidates cfg run task)) :=
      List.sorted_insertionSort summaryLe (summaryCandidates cfg run task)
    have hpair : List.Pairwise summaryLe (partsm.map (fun p => p.1)) :=
      List.Pairwise.sublist hsub hsorted
    have hmem : ∀ e ∈ partsm.map (fun p => p.1),
        e.isDirect = task.dependsOn.contains e.task.id := by
      intro e he
      have he2 := hsub.subset he
      have he3 := (List.perm_insertionSort summaryLe (summaryCandidates cfg run task)).subset he2
      exact summaryCandidatesAux_isDirect cfg task run.tasks e he3
    exact List.Pairwise.imp_of_mem
      (fun {a b} hma hmb hle => summaryLe_to_ordered task a b (hmem a hma) (hmem b hmb) hle)
      hpair
  split at h
  · injection h with h2
    have hp := congrArg (fun x : String × TokenBudget × List (SummaryEntry × String) => x.2.2) h2
    simp only at hp
    rw [← hp]
    simp
  · split at h
    · exact absurd h (by simp)
    · rename_i b2m partsm hadmit
      split at h
      · injection h with h2
        have hp := congrArg
          (fun x : String × TokenBudget × List (SummaryEntry × String) => x.2.2) h2
        simp only at hp
        rw [← hp]
        simp
      · injection h with h2
        have hp := congrArg
          (fun x : String × TokenBudget × List (SummaryEntry × String) => x.2.2) h2
        simp only at hp
        rw [← hp]
        exact key b2m partsm hadmit

/-! Concrete run for the C9 witness: completed tasks p, q, r with
summaries; the target task s depends on p only. -/

def w9sum (tid : String) : TaskSummary :=
  { taskId := tid, filesChanged := ["a.go"], filesCreated := [], functionsAdded := []
    typesAdded := [], patternsUsed := [], decisions := ["keep it simple"]
    conventions := [], gotchas := [], publicInterface := "" }

def w9p : Task :=
  { baseTask with
    id := "p", title := "P", priority := 2
    status := TaskStatus.completed, summary := some (w9sum "p") }

def w9q : Task :=
  { baseTask with
    id := "q", title := "Q", priority := 1
    status := TaskStatus.completed, summary := some (w9sum "q") }

def w9r : Task :=
  { baseTask with
    id := "r", title := "R", priority := 3
    status := TaskStatus.completed, summary := some (w9sum "r") }

def w9s : Task := { baseTask with id := "s", title := "S", dependsOn := ["p"] }

def w9run : Run :=
  { id := "run9", featureDesc := "", worktreePath := "", baseBranch := ""
    tasks := [w9p, w9q, w9r, w9s], createdAt := 0, updatedAt := 0
    status := RunStatus.running, error := "", projectType := "" }

def w9cfg : SummariesConfig :=
  { includeForDependencies := true, includeForSameFeature := true, maxSummaryTokens := 1000 }

def w9budget : TokenBudget := { total := 8000, used := 0, reserved := 500 }

def w9out : String × TokenBudget × List (SummaryEntry × String) :=
  (buildSummaryContext w9cfg w9run w9s w9budget).getD ("", w9budget, [])

/-- Witness for the C9 theorem on the concrete run: the block admits the
Full p summary first, then the Light q and r summaries in priority
order. -/
theorem buildSummaryContext_ordering_witness :
    List.Pairwise (summaryOrdered w9s) (w9out.2.2.map (fun p => p.1)) :=
  buildSummaryContext_ordering w9cfg w9run w9s w9budget w9out.1 w9out.2.1 w9out.2.2 rfl

/-! ## Executor (internal/executor/executor.go), as an effect trace.
External outcomes (locks, store writes, the assistant subprocess, git)
are supplied by an oracle environment; the model records the store and
git side effects the Go code performs, in order. -/

inductive ExecEvent where
  | acquireLocks (files : List String)
  | releaseLocks
  | storeSetStatus (status : TaskStatus)
  | storeSetError (msg : String)
  | storeSetSummary
  | storeSetCommit (sha : String)
  | claudeTaskRun
  | claudeSummaryRun
  | gitOpen
  | gitIsDirty
  | gitStageAll
  | gitCommit (msg : String)
deriving Repr, DecidableEq

def isStoreEvent : ExecEvent → Bool
  | ExecEvent.storeSetStatus _ => true
  | ExecEvent.storeSetError _ => true
  | ExecEvent.storeSetSummary => true
  | ExecEvent.storeSetCommit _ => true
  | _ => false

def isGitEvent : ExecEvent → Bool
  | ExecEvent.gitOpen => true
  | ExecEvent.gitIsDirty => true
  | ExecEvent.gitStageAll => true
  | ExecEvent.gitCommit _ => true
  | _ => false

def isSetErrorEvent : ExecEvent → Bool
  | ExecEvent.storeSetError _ => true
  | _ => false

/-- Oracle outcomes for one ExecuteTask call. A some error string means
the corresponding step fails in Go; store events are recorded only when
the store write succeeds. -/
structure ExecEnv where
  lockErr : Option String
  setRunningErr : Option String
  promptErr : Option String
  claudeErr : Option String
  summaryResult : Option TaskSummary
  setCompletedErr : Option String
  openErr : Option String
  dirtyErr : Option String
  dirty : Bool
  stageErr : Option String
  commitErr : Option String
  commitSha : String
deriving Repr, DecidableEq

structure TaskResultM where
  taskId : String
  success : Bool
  error : Option String
  commitSHA : Option String
deriving Repr, DecidableEq

/-- commitTask: open the repo, check dirtiness, return early commit-free
when clean, else stage all and commit with message aiflow: title. -/
def commitTask (env : ExecEnv) (task : Task) : Except String String × List ExecEvent :=
  match env.openErr with
  | some e => (Except.error ("failed to open repository: " ++ e), [ExecEvent.gitOpen])
  | none =>
    match env.dirtyErr with
    | some e =>
        (Except.error ("failed to check status: " ++ e), [ExecEvent.gitOpen, ExecEvent.gitIsDirty])
    | none =>
      if !env.dirty then (Except.ok "", [ExecEvent.gitOpen, ExecEvent.gitIsDirty])
      else
        match env.stageErr with
        | some e =>
            (Except.error ("failed to stage changes: " ++ e),
             [ExecEvent.gitOpen, ExecEvent.gitIsDirty, ExecEvent.gitStageAll])
        | none =>
          match env.commitErr with
          | some e =>
              (Except.error ("failed to commit: " ++ e),
               [ExecEvent.gitOpen, ExecEvent.gitIsDirty, ExecEvent.gitStageAll,
                ExecEvent.gitCommit ("aiflow: " ++ task.title)])
          | none =>
              (Except.ok env.commitSha,
               [ExecEvent.gitOpen, ExecEvent.gitIsDirty, ExecEvent.gitStageAll,
                ExecEvent.gitCommit ("aiflow: " ++ task.title)])

/-- ExecuteTask. Lock failure returns at once (no store write has
happened, and AcquireLockSet released anything partial). After
acquisition every return path ends with the deferred lock release. The
summary extraction is best effort; the completed status is persisted
before commitTask runs, and a commitTask failure is only a logged
warning on an otherwise successful result. -/
def executeTask (env : ExecEnv) (task : Task) : TaskResultM × List ExecEvent :=
  let acq := ExecEvent.acquireLocks (task.filesWrite ++ task.filesCreate)
  match env.lockErr with
  | some e =>
      ({ taskId := task.id, success := false
         error := some ("failed to acquire locks: " ++ e), commitSHA := none }, [])
  | none =>
    match env.setRunningErr with
    | some e =>
        ({ taskId := task.id, success := false
           error := some ("failed to update task status: " ++ e), commitSHA := none },
         [acq, ExecEvent.releaseLocks])
    | none =>
      match env.promptErr with
      | some e =>
          ({ taskId := task.id, success := false
             error := some ("failed to build prompt: " ++ e), commitSHA := none },
           [acq, ExecEvent.storeSetStatus TaskStatus.running,
            ExecEvent.storeSetError ("failed to build prompt: " ++ e),
            ExecEvent.releaseLocks])
      | none =>
        match env.claudeErr with
        | some e =>
            ({ taskId := task.id, success := false, error := some e, commitSHA := none },
             [acq, ExecEvent.storeSetStatus TaskStatus.running, ExecEvent.claudeTaskRun,
              ExecEvent.storeSetError e, ExecEvent.releaseLocks])
        | none =>
          let sumEvents :=
            match env.summaryResult with
            | some _ => [ExecEvent.claudeSummaryRun, ExecEvent.storeSetSummary]
            | none => [ExecEvent.claudeSummaryRun]
          match env.setCompletedErr with
          | some e =>
              ({ taskId := task.id, success := false
                 error := some ("failed to update task status: " ++ e), commitSHA := none },
               [acq, ExecEvent.storeSetStatus TaskStatus.running, ExecEvent.claudeTaskRun]
                 ++ sumEvents ++ [ExecEvent.releaseLocks])
          | none =>
            match commitTask env task with
            | (Except.error _, commitEvents) =>
                ({ taskId := task.id, success := true, error := none, commitSHA := none },
                 [acq, ExecEvent.storeSetStatus TaskStatus.running, ExecEvent.claudeTaskRun]
                   ++ sumEvents ++ [ExecEvent.storeSetStatus TaskStatus.completed]
                   ++ commitEvents ++ [ExecEvent.releaseLocks])
            | (Except.ok sha, commitEvents) =>
              if sha == "" then
                ({ taskId := task.id, success := true, error := none, commitSHA := none },
                 [acq, ExecEvent.storeSetStatus TaskStatus.running, ExecEvent.claudeTaskRun]
                   ++ sumEvents ++ [ExecEvent.storeSetStatus TaskStatus.completed]
                   ++ commitEvents ++ [ExecEvent.releaseLocks])
              else
                ({ taskId := task.id, success := true, error := none, commitSHA := some sha },
                 [acq, ExecEvent.storeSetStatus TaskStatus.running, ExecEvent.claudeTaskRun]
                   ++ sumEvents ++ [ExecEvent.storeSetStatus TaskStatus.completed]
                   ++ commitEvents ++ [ExecEvent.storeSetCommit sha, ExecEvent.releaseLocks])

/-- scheduler.FileLock.LockFiles: acquire in order, polling each; on any
failure release everything acquired in this call, leaving the pre-call
held set, and return the error. avail says whether a path can be locked
within the timeout. Result: the error, and the held set after the call. -/
def lockFilesAux (avail : String → Bool) (pre : List String) :
    List String → List String → Option String × List String
  | acquired, [] => (none, pre ++ acquired)
  | acquired, f :: rest =>
    if avail f then lockFilesAux avail pre (acquired ++ [f]) rest
    else (some ("timeout waiting for lock on " ++ f), pre)

def lockFilesModel (avail : String → Bool) (pre files : List String) :
    Option String × List String :=
  lockFilesAux avail pre [] files

/-- Events up to the first persisted completed status. -/
def eventsBeforeCompleted (tr : List ExecEvent) : List ExecEvent :=
  tr.takeWhile (fun e => e != ExecEvent.storeSetStatus TaskStatus.completed)

/-- The held set is unchanged when LockFiles fails: acquisition is
all-or-nothing. -/
theorem lockFilesAux_all_or_nothing (avail : String → Bool) (pre : List String) :
    ∀ (files acquired : List String),
      (lockFilesAux avail pre acquired files).1.isSome →
      (lockFilesAux avail pre acquired files).2 = pre := by
  intro files
  induction files with
  | nil => intro acquired h; simp [lockFilesAux] at h
  | cons f rest ih =>
    intro acquired h
    rw [lockFilesAux] at h ⊢
    by_cases hf : avail f = true
    · rw [if_pos hf] at h ⊢
      exact ih _ h
    · rw [if_neg hf]

/-- C3 (amended): lock acquisition is all-or-nothing, and on a
lock-acquisition failure ExecuteTask returns the failure in its result
without writing anything to the store (in particular no failed status is
persisted, and there are no locks left to release); on a prompt-build or
assistant failure it persists the failed status with its error through
SetTaskError and the deferred lock release runs last. -/
theorem executeTask_failure_handling (env : ExecEnv) (task : Task)
    (avail : String → Bool) (files : List String) :
    ((lockFilesModel avail [] files).1.isSome → (lockFilesModel avail [] files).2 = []) ∧
    (env.lockErr.isSome →
      (executeTask env task).1.success = false ∧
      ((executeTask env task).2.all (fun ev => !(isStoreEvent ev))) = true) ∧
    (env.lockErr = none → env.setRunningErr = none →
      (env.promptErr.isSome ∨ env.claudeErr.isSome) →
      (executeTask env task).1.success = false ∧
      ((executeTask env task).2.any isSetErrorEvent) = true ∧
      (executeTask env task).2.getLast? = some ExecEvent.releaseLocks) := by
  refine ⟨lockFilesAux_all_or_nothing avail [] files [], ?_, ?_⟩
  · intro hl
    cases he : env.lockErr with
    | none => rw [he] at hl; simp at hl
    | some e => simp [executeTask, he]
  · intro h1 h2 h3
    cases hp : env.promptErr with
    | some e => simp [executeTask, h1, h2, hp, isSetErrorEvent]
    | none =>
      cases hc : env.claudeErr with
      | none => rw [hp, hc] at h3; simp at h3
      | some e => simp [executeTask, h1, h2, hp, hc, isSetErrorEvent]

def c3task : Task := { baseTask with id := "t3", title := "T3", filesWrite := ["f"] }

/-- Environment in which every step succeeds; variants below flip single
steps to failures. -/
def okEnv : ExecEnv :=
  { lockErr := none, setRunningErr := none, promptErr := none, claudeErr := none
    summaryResult := none, setCompletedErr := none, openErr := none
    dirtyErr := none, dirty := true, stageErr := none
    commitErr := none, commitSha := "deadbeef" }

def c3lockEnv : ExecEnv := { okEnv with lockErr := some "timeout waiting for lock on f" }

def c3promptEnv : ExecEnv := { okEnv with promptErr := some "failed to read a.go" }

/-- C3 counterexample: on a lock-acquisition timeout ExecuteTask returns
without performing a single store write: the failed status is never
persisted, against the stated propagation policy. -/
theorem executeTask_lock_timeout_counterexample :
    (executeTask c3lockEnv c3task).1.success = false ∧
    (executeTask c3lockEnv c3task).2 = [] ∧
    ((executeTask c3lockEnv c3task).2.all (fun ev => !(isStoreEvent ev))) = true := by
  decide

/-- Witness for the amended C3 theorem: a failing lock set, a
lock-timeout run, and a prompt-failure run, all concrete. -/
theorem executeTask_failure_handling_witness :
    ((lockFilesModel (fun _ => false) [] ["f"]).2 = []) ∧
    ((executeTask c3lockEnv c3task).1.success = false ∧
      ((executeTask c3lockEnv c3task).2.all (fun ev => !(isStoreEvent ev))) = true) ∧
    ((executeTask c3promptEnv c3task).1.success = false ∧
      ((executeTask c3promptEnv c3task).2.any isSetErrorEvent) = true ∧
      (executeTask c3promptEnv c3task).2.getLast? = some ExecEvent.releaseLocks) :=
  ⟨(executeTask_failure_handling c3lockEnv c3task (fun _ => false) ["f"]).1 (by decide),
   (executeTask_failure_handling c3lockEnv c3task (fun _ => false) ["f"]).2.1 (by decide),
   (executeTask_failure_handling c3promptEnv c3task (fun _ => false) ["f"]).2.2 rfl rfl
     (by decide)⟩

/-- Every event commitTask emits is a git event, and any commit it makes
carries the message aiflow: title. -/
theorem commitTask_events_are_git (env : ExecEnv) (task : Task) :
    ((commitTask env task).2.all isGitEvent) = true ∧
    ((commitTask env task).2.all (fun e =>
      match e with
      | ExecEvent.gitCommit m => m == ("aiflow: " ++ task.title)
      | _ => true)) = true := by
  cases ho : env.openErr <;> cases hd : env.dirtyErr <;> cases hdy : env.dirty <;>
    cases hst : env.stageErr <;> cases hc : env.commitErr <;>
      simp [commitTask, isGitEvent, ho, hd, hdy, hst, hc]

/-- C4 (amended): on the successful path the executor persists the
completed status BEFORE attempting the commit (no git activity precedes
the persisted completed status), the result is successful regardless of
the commit outcome (a rejected staging or commit is only a logged
warning), and any commit made carries the message aiflow: title. -/
theorem executeTask_commit_after_completed (env : ExecEnv) (task : Task)
    (h1 : env.lockErr = none) (h2 : env.setRunningErr = none) (h3 : env.promptErr = none)
    (h4 : env.claudeErr = none) (h5 : env.setCompletedErr = none) :
    (executeTask env task).1.success = true ∧
    ((eventsBeforeCompleted (executeTask env task).2).all (fun e => !(isGitEvent e))) = true ∧
    ((executeTask env task).2.all (fun e =>
      match e with
      | ExecEvent.gitCommit m => m == ("aiflow: " ++ task.title)
      | _ => true)) = true := by
  rcases hct : commitTask env task with ⟨res, evs⟩
  have hmsg := (commitTask_events_are_git env task).2
  rw [hct] at hmsg
  simp only at hmsg
  cases hs : env.summaryResult
  · cases res
    · simp_all [executeTask, eventsBeforeCompleted, isGitEvent, List.all_append]
    · rename_i sha
      cases hsha : sha == "" <;>
        simp_all [executeTask, eventsBeforeCompleted, isGitEvent, List.all_append]
  · cases res
    · simp_all [executeTask, eventsBeforeCompleted, isGitEvent, List.all_append]
    · rename_i sha
      cases hsha : sha == "" <;>
        simp_all [executeTask, eventsBeforeCompleted, isGitEvent, List.all_append]

def c4task : Task := { baseTask with id := "t4", title := "T4" }

def c4env : ExecEnv := { okEnv with stageErr := some "permission denied" }

/-- C4 counterexample: with staging rejected, the task still ends
successful with no error recorded, and the staging attempt happens only
after the completed status has been persisted: neither the claimed
ordering (commit before completed) nor the claimed commit-failure error
holds. -/
theorem executeTask_commit_counterexample :
    (executeTask c4env c4task).1.success = true ∧
    (executeTask c4env c4task).1.error = none ∧
    ((executeTask c4env c4task).2.contains ExecEvent.gitStageAll) = true ∧
    ((eventsBeforeCompleted (executeTask c4env c4task).2).contains ExecEvent.gitStageAll)
      = false := by
  decide

/-- Witness for the amended C4 theorem at the concrete all-success
environment. -/
theorem executeTask_commit_after_completed_witness :
    (executeTask okEnv c4task).1.success = true ∧
    ((eventsBeforeCompleted (executeTask okEnv c4task).2).all (fun e => !(isGitEvent e))) = true ∧
    ((executeTask okEnv c4task).2.all (fun e =>
      match e with
      | ExecEvent.gitCommit m => m == ("aiflow: " ++ c4task.title)
      | _ => true)) = true :=
  executeTask_commit_after_completed okEnv c4task rfl rfl rfl rfl rfl

/-! ## Run driver (internal/executor/executor.go, ExecuteAll) -/

/-- The ExecuteAll loop, one fuel unit per iteration; cancellation is not
modelled. The oracle runs one batch and returns the reloaded run plus
whether every task result in the batch succeeded. On a batch failure the
driver marks the run failed and returns; after an empty batch it marks
the run completed only when IsComplete holds and otherwise returns with
the run unchanged. -/
def executeAllLoop (maxParallel : Int) (oracle : List Task → Run → Run × Bool) :
    Nat → Run → Run
  | 0, run => run
  | fuel + 1, run =>
    let batch := GetNextBatch run.tasks maxParallel
    if batch.isEmpty then
      if run.isComplete then { run with status := RunStatus.completed } else run
    else
      let res := oracle batch run
      if res.2 then executeAllLoop maxParallel oracle fuel res.1
      else { run with status := RunStatus.failed }

/-- C5 (amended): when the driver receives an empty batch it marks the
run completed if every task is completed (and the task list is
nonempty); otherwise it returns with the run status unchanged — it does
not mark the run failed. -/
theorem executeAll_empty_batch (maxParallel : Int) (oracle : List Task → Run → Run × Bool)
    (fuel : Nat) (run : Run)
    (hempty : GetNextBatch run.tasks maxParallel = []) (hfuel : 0 < fuel) :
    executeAllLoop maxParallel oracle fuel run =
      (if run.isComplete then { run with status := RunStatus.completed } else run) := by
  cases fuel with
  | zero => omega
  | succ n =>
    rw [executeAllLoop]
    simp [hempty]

def c5task : Task := { baseTask with id := "a", dependsOn := ["a"] }

def c5run : Run :=
  { id := "run5", featureDesc := "", worktreePath := "", baseBranch := ""
    tasks := [c5task], createdAt := 0, updatedAt := 0
    status := RunStatus.running, error := "", projectType := "" }

/-- C5 counterexample: a run whose only task can never become ready (a
self-dependency) yields an empty batch while not all tasks are
completed; the claim says the run is then marked failed, but the driver
returns it unchanged, still running. -/
theorem executeAll_unreachable_counterexample :
    GetNextBatch c5run.tasks 3 = [] ∧
    executeAllLoop 3 (fun _ r => (r, true)) 2 c5run = c5run ∧
    c5run.status = RunStatus.running := by
  decide

/-- Witness for the amended C5 theorem at the concrete stuck run. -/
theorem executeAll_empty_batch_witness :
    executeAllLoop 3 (fun _ r => (r, true)) 1 c5run =
      (if c5run.isComplete then { c5run with status := RunStatus.completed } else c5run) :=
  executeAll_empty_batch 3 (fun _ r => (r, true)) 1 c5run (by decide) (by decide)

/-! ## Run persistence (internal/state/persistence.go), at the JSON value
level. A run file is one JSON value; encoding/json writes the struct
fields in declaration order honoring the omitempty tags of the source,
and ignores keys that match no struct field on decode, failing on a type
mismatch. Timestamps are opaque ticks encoded as numbers. Go status
strings are open; the model decodes exactly the enumerated statuses, a
narrower domain no claim depends on. The spec-conversation blob and the
executor commit id (declared outside the provided sources) are not part
of the wire model. -/

inductive Json where
  | null
  | str (s : String)
  | num (n : Int)
  | jbool (b : Bool)
  | arr (xs : List Json)
  | obj (fields : List (String × Json))

def Json.objKeys : Json → List String
  | Json.obj fields => fields.map (fun p => p.1)
  | _ => []

def jsonLookup (fields : List (String × Json)) (k : String) : Option Json :=
  (fields.find? (fun p => p.1 == k)).map (fun p => p.2)

def statusString : TaskStatus → String
  | TaskStatus.pending => "pending"
  | TaskStatus.ready => "ready"
  | TaskStatus.running => "running"
  | TaskStatus.completed => "completed"
  | TaskStatus.failed => "failed"

def runStatusString : RunStatus → String
  | RunStatus.breakdown => "breakdown"
  | RunStatus.ready => "ready"
  | RunStatus.running => "running"
  | RunStatus.completed => "completed"
  | RunStatus.failed => "failed"
  | RunStatus.cancelled => "cancelled"

def strArr (l : List String) : Json := Json.arr (l.map Json.str)

def marshalSummary (s : TaskSummary) : Json :=
  Json.obj
    [("task_id", Json.str s.taskId), ("files_changed", strArr s.filesChanged),
     ("files_created", strArr s.filesCreated), ("functions_added", strArr s.functionsAdded),
     ("types_added", strArr s.typesAdded), ("patterns_used", strArr s.patternsUsed),
     ("decisions", strArr s.decisions), ("conventions", strArr s.conventions),
     ("gotchas", strArr s.gotchas), ("public_interface", Json.str s.publicInterface)]

/-- Modelled from the spec: the optional commit identifier of section 3
is persisted under a snake-case key with omitempty semantics; the struct
declaration carrying its wire tag is outside the provided sources. The
remaining fields follow the json tags of the source struct. -/
def marshalTask (t : Task) : Json :=
  Json.obj
    ([("id", Json.str t.id), ("title", Json.str t.title),
      ("description", Json.str t.description), ("files_read", strArr t.filesRead),
      ("files_write", strArr t.filesWrite), ("files_create", strArr t.filesCreate),
      ("depends_on", strArr t.dependsOn), ("priority", Json.num t.priority)]
     ++ (if t.parallelGroup == "" then [] else [("parallel_group", Json.str t.parallelGroup)])
     ++ [("status", Json.str (statusString t.status))]
     ++ (match t.summary with
         | none => []
         | some s => [("summary", marshalSummary s)])
     ++ (if t.error == "" then [] else [("error", Json.str t.error)])
     ++ (match t.startedAt with
         | none => []
         | some n => [("started_at", Json.num n)])
     ++ (match t.completedAt with
         | none => []
         | some n => [("completed_at", Json.num n)])
     ++ (if t.commitSHA == "" then [] else [("commit_sha", Json.str t.commitSHA)]))

def marshalRun (r : Run) : Json :=
  Json.obj
    ([("id", Json.str r.id), ("feature_desc", Json.str r.featureDesc),
      ("worktree_path", Json.str r.worktreePath), ("base_branch", Json.str r.baseBranch),
      ("tasks", Json.arr (r.tasks.map marshalTask)),
      ("created_at", Json.num r.createdAt), ("updated_at", Json.num r.updatedAt),
      ("status", Json.str (runStatusString r.status))]
     ++ (if r.error == "" then [] else [("error", Json.str r.error)])
     ++ (if r.projectType == "" then [] else [("project_type", Json.str r.projectType)]))

/-! Field decoders with json.Unmarshal semantics: a missing key leaves
the zero value, JSON null leaves the value untouched, a mismatched shape
fails the whole decode. -/

def decodeString : Option Json → Option String
  | none => some ""
  | some Json.null => some ""
  | some (Json.str s) => some s
  | some _ => none

def decodeStrList : Option Json → Option (List String)
  | none => some []
  | some Json.null => some []
  | some (Json.arr xs) =>
      xs.foldr (fun j acc =>
        match j, acc with
        | Json.str s, some l => some (s :: l)
        | _, _ => none) (some [])
  | some _ => none

def decodeInt : Option Json → Option Int
  | none => some 0
  | some Json.null => some 0
  | some (Json.num n) => some n
  | some _ => none

def decodeTick : Option Json → Option Nat
  | none => some 0
  | some Json.null => some 0
  | some (Json.num n) => if n < 0 then none else some n.toNat
  | some _ => none

def decodeTickOpt : Option Json → Option (Option Nat)
  | none => some none
  | some Json.null => some none
  | some (Json.num n) => if n < 0 then none else some (some n.toNat)
  | some _ => none

def parseTaskStatusStr (s : String) : Option TaskStatus :=
  if s == "pending" then some TaskStatus.pending
  else if s == "ready" then some TaskStatus.ready
  else if s == "running" then some TaskStatus.running
  else if s == "completed" then some TaskStatus.completed
  else if s == "failed" then some TaskStatus.failed
  else none

def decodeTaskStatus : Option Json → Option TaskStatus
  | some (Json.str s) => parseTaskStatusStr s
  | _ => none

def parseRunStatusStr (s : String) : Option RunStatus :=
  if s == "breakdown" then some RunStatus.breakdown
  else if s == "ready" then some RunStatus.ready
  else if s == "running" then some RunStatus.running
  else if s == "completed" then some RunStatus.completed
  else if s == "failed" then some RunStatus.failed
  else if s == "cancelled" then some RunStatus.cancelled
  else none

def decodeRunStatus : Option Json → Option RunStatus
  | some (Json.str s) => parseRunStatusStr s
  | _ => none

def decodeSummary : Json → Option TaskSummary
  | Json.obj fs =>
    (decodeString (jsonLookup fs "task_id")).bind fun taskId =>
    (decodeStrList (jsonLookup fs "files_changed")).bind fun filesChanged =>
    (decodeStrList (jsonLookup fs "files_created")).bind fun filesCreated =>
    (decodeStrList (jsonLookup fs "functions_added")).bind fun functionsAdded =>
    (decodeStrList (jsonLookup fs "types_added")).bind fun typesAdded =>
    (decodeStrList (jsonLookup fs "patterns_used")).bind fun patternsUsed =>
    (decodeStrList (jsonLookup fs "decisions")).bind fun decisions =>
    (decodeStrList (jsonLookup fs "conventions")).bind fun conventions =>
    (decodeStrList (jsonLookup fs "gotchas")).bind fun gotchas =>
    (decodeString (jsonLookup fs "public_interface")).map fun publicInterface =>
    { taskId := taskId, filesChanged := filesChanged, filesCreated := filesCreated
      functionsAdded := functionsAdded, typesAdded := typesAdded
      patternsUsed := patternsUsed, decisions := decisions, conventions := conventions
      gotchas := gotchas, publicInterface := publicInterface }
  | _ => none

def decodeSummaryOpt : Option Json → Option (Option TaskSummary)
  | none => some none
  | some Json.null => some none
  | some j => (decodeSummary j).map some

def decodeTask : Json → Option Task
  | Json.obj fs =>
    (decodeString (jsonLookup fs "id")).bind fun id =>
    (decodeString (jsonLookup fs "title")).bind fun title =>
    (decodeString (jsonLookup fs "description")).bind fun description =>
    (decodeStrList (jsonLookup fs "files_read")).bind fun filesRead =>
    (decodeStrList (jsonLookup fs "files_write")).bind fun filesWrite =>
    (decodeStrList (jsonLookup fs "files_create")).bind fun filesCreate =>
    (decodeStrList (jsonLookup fs "depends_on")).bind fun dependsOn =>
    (decodeInt (jsonLookup fs "priority")).bind fun priority =>
    (decodeString (jsonLookup fs "parallel_group")).bind fun parallelGroup =>
    (decodeTaskStatus (jsonLookup fs "status")).bind fun status =>
    (decodeSummaryOpt (jsonLookup fs "summary")).bind fun summary =>
    (decodeString (jsonLookup fs "error")).bind fun error =>
    (decodeTickOpt (jsonLookup fs "started_at")).bind fun startedAt =>
    (decodeTickOpt (jsonLookup fs "completed_at")).bind fun completedAt =>
    (decodeString (jsonLookup fs "commit_sha")).map fun commitSHA =>
    { id := id, title := title, description := description, filesRead := filesRead
      filesWrite := filesWrite, filesCreate := filesCreate, dependsOn := dependsOn
      priority := priority, parallelGroup := parallelGroup, status := status
      summary := summary, error := error, startedAt := startedAt
      completedAt := completedAt, commitSHA := commitSHA }
  | _ => none

def decodeTasksList : Option Json → Option (List Task)
  | none => some []
  | some Json.null => some []
  | some (Json.arr xs) =>
      xs.foldr (fun j acc =>
        match acc with
        | none => none
        | some l =>
          match decodeTask j with
          | none => none
          | some t => some (t :: l)) (some [])
  | some _ => none

/-- LoadRun decoding of one run file value: known keys are looked up by
name, anything else is ignored. -/
def unmarshalRun : Json → Option Run
  | Json.obj fs =>
    (decodeString (jsonLookup fs "id")).bind fun id =>
    (decodeString (jsonLookup fs "feature_desc")).bind fun featureDesc =>
    (decodeString (jsonLookup fs "worktree_path")).bind fun worktreePath =>
    (decodeString (jsonLookup fs "base_branch")).bind fun baseBranch =>
    (decodeTasksList (jsonLookup fs "tasks")).bind fun tasks =>
    (decodeTick (jsonLookup fs "created_at")).bind fun createdAt =>
    (decodeTick (jsonLookup fs "updated_at")).bind fun updatedAt =>
    (decodeRunStatus (jsonLookup fs "status")).bind fun status =>
    (decodeString (jsonLookup fs "error")).bind fun error =>
    (decodeString (jsonLookup fs "project_type")).map fun projectType =>
    { id := id, featureDesc := featureDesc, worktreePath := worktreePath
      baseBranch := baseBranch, tasks := tasks, createdAt := createdAt
      updatedAt := updatedAt, status := status, error := error
      projectType := projectType }
  | _ => none

/-! ## SaveRun (internal/state/persistence.go) as filesystem operations.
filepath.Join is modelled by slash concatenation. -/

inductive FsOp where
  | write (path : String) (content : Json)
  | rename (src dst : String)

def runPath (stateDir id : String) : String := stateDir ++ "/runs/" ++ id ++ ".json"

/-- SaveRun: set updated_at to the present clock tick, marshal, and
write the run file in one direct os.WriteFile. There is no temporary
file and no rename. -/
def SaveRun (stateDir : String) (run : Run) (now : Nat) : Run × List FsOp :=
  let run2 := { run with updatedAt := now }
  (run2, [FsOp.write (runPath stateDir run.id) (marshalRun run2)])

/-- The write-then-rename discipline the claim describes: a write to a
distinct temporary path followed by a rename over the destination. -/
def isAtomicWriteRename (ops : List FsOp) (dst : String) : Prop :=
  ∃ tmp content, ¬ tmp = dst ∧ ops = [FsOp.write tmp content, FsOp.rename tmp dst]

theorem decodeStrList_strArr (l : List String) : decodeStrList (some (strArr l)) = some l := by
  induction l with
  | nil => rfl
  | cons a rest ih =>
    simp only [decodeStrList, strArr, List.map_cons, List.foldr_cons] at ih ⊢
    rw [ih]

theorem parseTaskStatus_statusString (st : TaskStatus) :
    parseTaskStatusStr (statusString st) = some st := by
  cases st <;> decide

theorem parseRunStatus_runStatusString (st : RunStatus) :
    parseRunStatusStr (runStatusString st) = some st := by
  cases st <;> decide

theorem decodeTick_num (n : Nat) : decodeTick (some (Json.num n)) = some n := by
  simp only [decodeTick]
  rw [if_neg (by omega)]
  simp

theorem decodeTickOpt_num (n : Nat) : decodeTickOpt (some (Json.num n)) = some (some n) := by
  simp only [decodeTickOpt]
  rw [if_neg (by omega)]
  simp

theorem decodeSummary_marshal (s : TaskSummary) : decodeSummary (marshalSummary s) = some s := by
  simp [decodeSummary, marshalSummary, jsonLookup, decodeString, decodeStrList_strArr]

theorem decodeTickOpt_none : decodeTickOpt none = some none := rfl

theorem decodeSummaryOpt_none : decodeSummaryOpt none = some none := rfl

theorem decodeSummaryOpt_marshal (s : TaskSummary) :
    decodeSummaryOpt (some (marshalSummary s)) = some (some s) := by
  have h : decodeSummaryOpt (some (marshalSummary s)) =
      (decodeSummary (marshalSummary s)).map some := rfl
  rw [h, decodeSummary_marshal]
  rfl

set_option maxHeartbeats 2000000 in
theorem decodeTask_marshal (t : Task) : decodeTask (marshalTask t) = some t := by
  rcases t with ⟨id, title, description, filesRead, filesWrite, filesCreate, dependsOn,
    priority, parallelGroup, status, summary, error, startedAt, completedAt, commitSHA⟩
  by_cases hpg : parallelGroup == "" <;>
  cases summary <;>
  by_cases herr : error == "" <;>
  cases startedAt <;>
  cases completedAt <;>
  by_cases hsha : commitSHA == "" <;>
  simp_all [decodeTask, marshalTask, jsonLookup, decodeString, decodeInt, decodeTaskStatus,
    decodeStrList_strArr, parseTaskStatus_statusString, decodeSummaryOpt_none,
    decodeSummaryOpt_marshal, decodeTickOpt_num, decodeTickOpt_none]

theorem decodeTasksList_marshal (ts : List Task) :
    decodeTasksList (some (Json.arr (ts.map marshalTask))) = some ts := by
  induction ts with
  | nil => rfl
  | cons t rest ih =>
    simp only [decodeTasksList, List.map_cons, List.foldr_cons] at ih ⊢
    rw [ih, decodeTask_marshal]

theorem unmarshalRun_marshal (r : Run) : unmarshalRun (marshalRun r) = some r := by
  rcases r with ⟨id, featureDesc, worktreePath, baseBranch, tasks, createdAt, updatedAt,
    status, error, projectType⟩
  by_cases herr : error == "" <;> by_cases hpt : projectType == "" <;>
    simp_all [unmarshalRun, marshalRun, jsonLookup, decodeString, decodeTick_num,
      decodeRunStatus, parseRunStatus_runStatusString, decodeTasksList_marshal]

/-- The top-level keys a run file can carry after a save. -/
def runKnownKeys : List String :=
  ["id", "feature_desc", "worktree_path", "base_branch", "tasks", "created_at",
   "updated_at", "status", "error", "project_type", "spec_conversation"]

/-- C7 (amended): unknown fields are NOT preserved: a load ignores keys
outside the schema and a subsequent save emits only known schema keys,
so a load-then-save round trip drops every unknown field. -/
theorem marshalRun_keys_known (j : Json) (r : Run) (h : unmarshalRun j = some r) :
    ((marshalRun r).objKeys.all (fun k => runKnownKeys.contains k)) = true := by
  by_cases herr : r.error == "" <;> by_cases hpt : r.projectType == "" <;>
    simp [marshalRun, Json.objKeys, herr, hpt, runKnownKeys]

/-- A run file with an unknown key, used by the C7 theorems. -/
def c7file : Json :=
  Json.obj [("id", Json.str "r1"), ("status", Json.str "ready"), ("custom", Json.str "x")]

/-- C7 counterexample: a run file carrying the unknown key custom loads
successfully, and the file written back by a save no longer carries that
key: the round trip drops unknown fields instead of preserving them. -/
theorem loadSave_drops_unknown_key :
    (unmarshalRun c7file).isSome = true ∧
    ((unmarshalRun c7file).map (fun r => (marshalRun r).objKeys.contains "custom")) =
      some false := by
  constructor
  · rfl
  · rfl

/-- Witness for the amended C7 theorem at the concrete run file. -/
theorem marshalRun_keys_known_witness :
    ((marshalRun ((unmarshalRun c7file).getD
        { id := "", featureDesc := "", worktreePath := "", baseBranch := "", tasks := []
          createdAt := 0, updatedAt := 0, status := RunStatus.breakdown, error := ""
          projectType := "" })).objKeys.all (fun k => runKnownKeys.contains k)) = true :=
  marshalRun_keys_known c7file _ (by rfl)

/-- C6 counterexample: the operations SaveRun performs are a single
direct write of the run file; they are not a write to a temporary file
followed by a rename over the run file. The updated_at refresh does
happen. -/
theorem saveRun_not_write_rename :
    ¬ isAtomicWriteRename (SaveRun "st" c5run 7).2 (runPath "st" c5run.id) ∧
    (SaveRun "st" c5run 7).1.updatedAt = 7 := by
  constructor
  · rintro ⟨tmp, content, hne, heq⟩
    simp [SaveRun] at heq
  · rfl

/-- C6 (amended): SaveRun updates updated_at and persists the run with
one direct write of the encoded run to the run file path — no temporary
file and no rename — and the written content decodes back to exactly the
saved run. -/
theorem saveRun_direct_write (stateDir : String) (run : Run) (now : Nat) :
    (SaveRun stateDir run now).1 = { run with updatedAt := now } ∧
    (SaveRun stateDir run now).2 =
      [FsOp.write (runPath stateDir run.id) (marshalRun { run with updatedAt := now })] ∧
    unmarshalRun (marshalRun { run with updatedAt := now }) =
      some { run with updatedAt := now } :=
  ⟨rfl, rfl, unmarshalRun_marshal _⟩

end Aiflow
